import Mathlib

/-!
# Verification of the `steg` LSB steganography codec (`src/main.go`)

Shallow embedding of the Go program's codec functions:

* `canFitMessage`   — capacity estimator (main.go lines 219–222)
* `embedSecretMessage` — LSB embed (main.go lines 225–255)
* `getNextMessageBit`  — payload bit source (main.go lines 258–275)
* `decodeSecretMessage` — LSB extract (main.go lines 278–325)
* `encodePathPersistedGrid` — the grid handed to the image encoder on the
  encode path of `main` (main.go lines 120–126)

Modelling choices:

* Go `uint8` channel values are `Nat`s; every conversion the Go code performs
  (`color.RGBA.RGBA()` scaling to 16 bits, `uint8(r >> 8)` narrowing) is
  embedded explicitly, with `% 256` standing for the `uint8` cast.
* A pixel grid (`image.Image`) is its bounds rectangle together with its
  `At` function; the real grids carry 8-bit channels, which theorems assume
  as `≤ 255` hypotheses where it matters.
* Go strings are passed by value: an assignment to a `string` parameter
  inside a callee is invisible to the caller.  `getNextMessageBit` is
  therefore a pure function of the message it receives, and the statement
  `message = message[1:]` inside it has no effect on later calls.
* The Go slice expression `messageBytes[:len(messageBytes)-8]` panics at
  runtime when `len(messageBytes) < 8`; `decodeSecretMessage` therefore
  returns an `Option`, with `none` modelling that panic.
-/

/-- An 8-bit RGBA color (`color.RGBA`): four channels, each a `uint8`. -/
structure RGBA where
  r : Nat
  g : Nat
  b : Nat
  a : Nat
  deriving DecidableEq, Repr

/-- An image rectangle (`image.Rectangle`): min/max X and Y.
Go iterates `y` from `Min.Y` to `Max.Y - 1` and `x` from `Min.X` to
`Max.X - 1`. -/
structure Rect where
  minX : Int
  minY : Int
  maxX : Int
  maxY : Int
  deriving DecidableEq, Repr

/-- A pixel grid (`image.Image`): bounds plus the `At` function. -/
structure Grid where
  bounds : Rect
  pix : Int → Int → RGBA

/-- `hiddenBitMask = 1` (main.go line 19). -/
def hiddenBitMask : Nat := 1

/-- A point `(x, y)` lies inside a rectangle (Go's `image.Point.In`). -/
def inBounds (r : Rect) (x y : Int) : Prop :=
  r.minX ≤ x ∧ x < r.maxX ∧ r.minY ≤ y ∧ y < r.maxY

instance (r : Rect) (x y : Int) : Decidable (inBounds r x y) := by
  unfold inBounds; infer_instance

/-- The Go `uint8(·)` cast on a wider integer value. -/
def uint8cast (v : Nat) : Nat := v % 256

/-- One 16-bit channel produced by `color.RGBA.RGBA()`: Go computes
`r := uint32(c.R); r |= r << 8`. -/
def colorRGBA32 (v : Nat) : Nat :=
  let u := uint8cast v
  u ||| (u <<< 8)

/-- `uint8(r >> 8)`: the narrowing the codec applies to each 16-bit channel
(main.go lines 238–241 and 291). -/
def channel8 (v : Nat) : Nat := uint8cast (v >>> 8)

/-- `originalRGBAColor` (main.go lines 236–242): call `RGBA()` on the pixel's
color and narrow each 16-bit channel back to 8 bits. -/
def toRGBAColor (c : RGBA) : RGBA :=
  { r := channel8 (colorRGBA32 c.r)
    g := channel8 (colorRGBA32 c.g)
    b := channel8 (colorRGBA32 c.b)
    a := channel8 (colorRGBA32 c.a) }

/-- `getNextMessageBit` (main.go lines 258–275).  The Go parameter is a
string passed by value, so the statement `message = message[1:]` inside the
function body only rebinds the local variable and never propagates to the
caller; the function is a pure function of the message it is handed.  For a
non-empty message it returns `uint8(message[0]) & hiddenBitMask`, and `0`
otherwise. -/
def getNextMessageBit (message : List Nat) : Nat :=
  match message with
  | char :: _ =>
      -- ascii := uint8(char); return ascii & hiddenBitMask
      uint8cast char &&& hiddenBitMask
  | [] => 0

/-- The per-pixel body of the embed loop (main.go lines 232–252): convert the
original color to 8-bit RGBA, fetch the next message bit, and replace the red
channel's least significant bit.  Go's `R &^ hiddenBitMask` clears bit 0 of a
`uint8`, i.e. equals `R &&& 0xFE` on 8-bit values. -/
def embedPixel (message : List Nat) (c : RGBA) : RGBA :=
  let originalRGBAColor := toRGBAColor c
  let bit := getNextMessageBit message
  { originalRGBAColor with
      r := (originalRGBAColor.r &&& 0xFE) ||| (bit &&& hiddenBitMask) }

/-- Row-major pixel traversal used by both embed and extract:
`for y := Min.Y; y < Max.Y; y++ { for x := Min.X; x < Max.X; x++ }`. -/
def rowMajorCoords (r : Rect) : List (Int × Int) :=
  (List.range (r.maxY - r.minY).toNat).flatMap fun j =>
    (List.range (r.maxX - r.minX).toNat).map fun i =>
      (r.minX + Int.ofNat i, r.minY + Int.ofNat j)

/-- `(*image.RGBA).Set` on an in-bounds point: update one pixel of the
destination. -/
def setPixel (f : Int → Int → RGBA) (x y : Int) (c : RGBA) :
    Int → Int → RGBA :=
  fun x2 y2 => if x2 = x ∧ y2 = y then c else f x2 y2

/-- The all-zero color of a freshly allocated `image.NewRGBA` buffer. -/
def zeroRGBA : RGBA := ⟨0, 0, 0, 0⟩

/-- `embedSecretMessage` (main.go lines 225–255): iterate every pixel of the
original image in row-major order and `Set` the embedded color into the new
grid, which starts as the all-zero buffer allocated by
`image.NewRGBA(img.Bounds())` (main.go line 121).  The local variable
`message` is never reassigned inside the loop, so every iteration hands the
same message to `getNextMessageBit`. -/
def embedSecretMessage (originalImg : Grid) (message : List Nat) : Grid :=
  { bounds := originalImg.bounds
    pix := (rowMajorCoords originalImg.bounds).foldl
      (fun img p => setPixel img p.1 p.2 (embedPixel message (originalImg.pix p.1 p.2)))
      (fun _ _ => zeroRGBA) }

/-- `canFitMessage` (main.go lines 219–222): note that the code multiplies
`img.Bounds().Max.X * img.Bounds().Max.Y`, the bounds' maxima, not the
width and height.  Go's `/` on `int` truncates toward zero (`Int.tdiv`). -/
def canFitMessage (img : Grid) (message : List Nat) : Bool :=
  let maxMessageSize := Int.tdiv (img.bounds.maxX * img.bounds.maxY * 3) 8
  (message.length : Int) < maxMessageSize

/-- The hidden bit read back from one pixel (main.go lines 286–298):
`r, _, _, _ := color.RGBA(); uint8(r>>8) & hiddenBitMask`. -/
def pixelBit (c : RGBA) : Nat := channel8 (colorRGBA32 c.r) &&& hiddenBitMask

/-- The sequence of hidden bits of a grid in row-major order, one per pixel:
exactly the values `decodeSecretMessage` appends to `messageBytes`. -/
def gridBits (g : Grid) : List Nat :=
  (rowMajorCoords g.bounds).map fun p => pixelBit (g.pix p.1 p.2)

/-- The terminator test run after each append (main.go lines 304 and 313):
`len(messageBytes) >= 8 && bytes.Equal(messageBytes[len-8:], {0,…,0})`. -/
def stopCheck (l : List Nat) : Bool :=
  decide (8 ≤ l.length) && decide (l.drop (l.length - 8) = List.replicate 8 0)

/-- The accumulation loop of `decodeSecretMessage` (main.go lines 283–316):
append one bit per pixel and stop as soon as the last 8 accumulated values
are all zero.  The Go code breaks out of the column loop and then, via the
identical re-check at line 313, out of the row loop; since the check fires
at the very append that completes a zero window, the two-level loop visits
exactly the same prefix of the row-major bit sequence as this single loop. -/
def extractLoop : List Nat → List Nat → List Nat
  | [], messageBytes => messageBytes
  | bit :: rest, messageBytes =>
      let acc := messageBytes ++ [bit]
      if stopCheck acc then acc else extractLoop rest acc

/-- `decodeSecretMessage` (main.go lines 278–325): accumulate the per-pixel
bits, then strip the 8-entry terminator with
`messageBytes[:len(messageBytes)-8]` (line 319).  That slice expression
panics in Go when `len(messageBytes) < 8`; `none` models that panic. -/
def decodeSecretMessage (encodedImg : Grid) : Option (List Nat) :=
  let messageBytes := extractLoop (gridBits encodedImg) []
  if messageBytes.length < 8 then none
  else some (messageBytes.take (messageBytes.length - 8))

/-- The encode path of `main` (main.go lines 120–126): allocate the new
grid, embed the message into it, then call
`encodeImage("encoded_image", imageExtension, img)` — line 126 passes `img`,
the original image, as the grid to persist.  This definition returns the
grid handed to `encodeImage`. -/
def encodePathPersistedGrid (img : Grid) (message : List Nat) : Grid :=
  let encodedImg := embedSecretMessage img message
  -- line 126: `encodeImage("encoded_image", imageExtension, img)`
  let _ := encodedImg
  img

/-! ## Concrete grids used as test inputs -/

/-- A 4×4 grid whose pixels all have red 200, green 0, blue 0, alpha 255. -/
def grid4x4 : Grid :=
  { bounds := ⟨0, 0, 4, 4⟩
    pix := fun _ _ => ⟨200, 0, 0, 255⟩ }

/-- A 2×2 grid (4 pixels, fewer than the 8 needed for a terminator). -/
def grid2x2 : Grid :=
  { bounds := ⟨0, 0, 2, 2⟩
    pix := fun _ _ => ⟨200, 0, 0, 255⟩ }

/-- A 2×2 grid whose bounds do not start at the origin:
`Min = (1,1)`, `Max = (3,3)`, so width = height = 2. -/
def gridOffOrigin : Grid :=
  { bounds := ⟨1, 1, 3, 3⟩
    pix := fun _ _ => ⟨200, 0, 0, 255⟩ }

/-- Width of a grid, `Max.X - Min.X`. -/
def gridWidth (g : Grid) : Int := g.bounds.maxX - g.bounds.minX

/-- Height of a grid, `Max.Y - Min.Y`. -/
def gridHeight (g : Grid) : Int := g.bounds.maxY - g.bounds.minY

/-- A 4×4 grid whose pixel (0,0) has red 201 (hidden bit 1) and whose other
pixels have red 200 (hidden bit 0). -/
def gridMixed : Grid :=
  { bounds := ⟨0, 0, 4, 4⟩
    pix := fun x y => if x = 0 ∧ y = 0 then ⟨201, 0, 0, 255⟩ else ⟨200, 0, 0, 255⟩ }

/-- The 8 entries of `bits` starting at position `k` exist and are all zero:
an 8-consecutive-zero window at `k`. -/
def zeroWindowAt (bits : List Nat) (k : Nat) : Prop :=
  k + 8 ≤ bits.length ∧ (bits.drop k).take 8 = List.replicate 8 0

instance (bits : List Nat) (k : Nat) : Decidable (zeroWindowAt bits k) := by
  unfold zeroWindowAt; infer_instance


/-! ## Helper lemmas: the embed loop as a pointwise update -/

/-- Folding `setPixel` over a coordinate list, writing a value that depends
only on the coordinate, yields the written value at every listed coordinate
and the initial buffer elsewhere. -/
theorem foldl_setPixel_apply (v : Int × Int → RGBA) (l : List (Int × Int))
    (init : Int → Int → RGBA) (x y : Int) :
    (l.foldl (fun img p => setPixel img p.1 p.2 (v p)) init) x y
      = if (x, y) ∈ l then v (x, y) else init x y := by
  induction l using List.reverseRecOn generalizing x y with
  | nil => simp
  | append_singleton l p ih =>
      rw [List.foldl_append]
      simp only [List.foldl_cons, List.foldl_nil, setPixel]
      by_cases hp : x = p.1 ∧ y = p.2
      · obtain ⟨hx, hy⟩ := hp
        subst hx; subst hy
        simp
      · rw [if_neg hp, ih]
        have hne : (x, y) ≠ p := by
          intro h
          exact hp ⟨congrArg Prod.fst h, congrArg Prod.snd h⟩
        simp [hne]

/-- Membership in the row-major traversal is exactly `inBounds`. -/
theorem mem_rowMajorCoords (r : Rect) (x y : Int) :
    (x, y) ∈ rowMajorCoords r ↔ inBounds r x y := by
  rw [rowMajorCoords, List.mem_flatMap]
  constructor
  · rintro ⟨j, hj, hmem⟩
    rw [List.mem_range] at hj
    rw [List.mem_map] at hmem
    obtain ⟨i, hi, heq⟩ := hmem
    rw [List.mem_range] at hi
    obtain ⟨hx, hy⟩ : r.minX + Int.ofNat i = x ∧ r.minY + Int.ofNat j = y :=
      Prod.mk.injEq .. ▸ heq
    rw [Int.ofNat_eq_natCast] at hx hy
    exact ⟨by omega, by omega, by omega, by omega⟩
  · rintro ⟨hx1, hx2, hy1, hy2⟩
    refine ⟨(y - r.minY).toNat, List.mem_range.mpr (by omega),
      List.mem_map.mpr ⟨(x - r.minX).toNat, List.mem_range.mpr (by omega), ?_⟩⟩
    have hx : r.minX + Int.ofNat (x - r.minX).toNat = x := by
      rw [Int.ofNat_eq_natCast]; omega
    have hy : r.minY + Int.ofNat (y - r.minY).toNat = y := by
      rw [Int.ofNat_eq_natCast]; omega
    rw [hx, hy]

/-- Inside the bounds, the embedded grid's pixel is the embedded version of
the original pixel. -/
theorem embed_pix_inBounds (g : Grid) (message : List Nat) (x y : Int)
    (h : inBounds g.bounds x y) :
    (embedSecretMessage g message).pix x y = embedPixel message (g.pix x y) := by
  show ((rowMajorCoords g.bounds).foldl
      (fun img p => setPixel img p.1 p.2 (embedPixel message (g.pix p.1 p.2)))
      (fun _ _ => zeroRGBA)) x y = _
  rw [foldl_setPixel_apply (fun p => embedPixel message (g.pix p.1 p.2))]
  rw [if_pos ((mem_rowMajorCoords g.bounds x y).mpr h)]

/-! ## Helper lemmas: 8-bit channel arithmetic -/

set_option maxRecDepth 4096

/-- The 16-bit expansion/narrowing of `color.RGBA.RGBA()` followed by
`uint8(r >> 8)` is the identity on 8-bit channel values. -/
theorem channel8_colorRGBA32 (v : Nat) (h : v ≤ 255) :
    channel8 (colorRGBA32 v) = v := by
  have key : ∀ w : Fin 256, channel8 (colorRGBA32 w.val) = w.val := by decide
  exact key ⟨v, by omega⟩

/-- The LSB of the embedded red channel is the message bit. -/
theorem embedR_lsb (m b : Nat) (hm : m ≤ 255) (hb : b ≤ 1) :
    ((m &&& 0xFE) ||| (b &&& 1)) &&& 1 = b := by
  have key : ∀ (m : Fin 256) (b : Fin 2),
      ((m.val &&& 0xFE) ||| (b.val &&& 1)) &&& 1 = b.val := by decide
  exact key ⟨m, by omega⟩ ⟨b, by omega⟩

/-- The high bits of the embedded red channel agree with the original. -/
theorem embedR_high (m b : Nat) (hm : m ≤ 255) (hb : b ≤ 1) :
    (((m &&& 0xFE) ||| (b &&& 1)) &&& 0xFE) = m &&& 0xFE := by
  have key : ∀ (m : Fin 256) (b : Fin 2),
      (((m.val &&& 0xFE) ||| (b.val &&& 1)) &&& 0xFE) = m.val &&& 0xFE := by
    decide
  exact key ⟨m, by omega⟩ ⟨b, by omega⟩

/-- `getNextMessageBit` returns `0` or `1`. -/
theorem getNextMessageBit_le_one (message : List Nat) :
    getNextMessageBit message ≤ 1 := by
  cases message with
  | nil => exact Nat.zero_le 1
  | cons c rest => exact Nat.and_le_right

/-- On a non-empty message, `getNextMessageBit` is the parity (LSB) of the
first byte. -/
theorem getNextMessageBit_cons (c : Nat) (rest : List Nat) :
    getNextMessageBit (c :: rest) = c &&& 1 := by
  show uint8cast c &&& hiddenBitMask = c &&& 1
  rw [hiddenBitMask, Nat.and_one_is_mod, Nat.and_one_is_mod, uint8cast]
  exact Nat.mod_mod_of_dvd c (by norm_num)

/-- `channel8` always lands in the 8-bit range. -/
theorem channel8_le (v : Nat) : channel8 v ≤ 255 := by
  have := Nat.mod_lt (v >>> 8) (show 0 < 256 by norm_num)
  simpa [channel8, uint8cast] using Nat.lt_succ_iff.mp this

/-! ## Extraction loop characterization -/

/-- The terminator check on a prefix of the bit stream fires exactly at a
zero window ending at that prefix's last element. -/
theorem stopCheck_take (bits : List Nat) (n : Nat) (hn : n ≤ bits.length) :
    stopCheck (bits.take n) = true ↔ 8 ≤ n ∧ zeroWindowAt bits (n - 8) := by
  have hlen : (bits.take n).length = n := by
    rw [List.length_take]; omega
  rw [stopCheck, Bool.and_eq_true, decide_eq_true_eq, decide_eq_true_eq, hlen]
  constructor
  · rintro ⟨h8, hz⟩
    refine ⟨h8, by omega, ?_⟩
    rw [List.drop_take] at hz
    have : n - (n - 8) = 8 := by omega
    rwa [this] at hz
  · rintro ⟨h8, _, hz⟩
    refine ⟨h8, ?_⟩
    rw [List.drop_take]
    have : n - (n - 8) = 8 := by omega
    rwa [this]

/-- Running the accumulation loop from an intermediate state: if the first
zero window of `bits` starts at `k`, the loop started after `m ≤ k + 7`
appended bits halts with exactly the first `k + 8` bits accumulated. -/
theorem extractLoop_stops (bits : List Nat) (k : Nat)
    (hk : zeroWindowAt bits k)
    (hmin : ∀ j, j < k → ¬ zeroWindowAt bits j) :
    ∀ d m, m + d = k + 7 →
      extractLoop (bits.drop m) (bits.take m) = bits.take (k + 8) := by
  have hlen : k + 8 ≤ bits.length := hk.1
  intro d
  induction d with
  | zero =>
      intro m hm
      have hmlt : m < bits.length := by omega
      rw [List.drop_eq_getElem_cons hmlt, extractLoop]
      have hacc : bits.take m ++ [bits[m]] = bits.take (m + 1) := by
        simp
      rw [hacc]
      have hstop : stopCheck (bits.take (m + 1)) = true := by
        rw [stopCheck_take bits (m + 1) (by omega)]
        have : m + 1 - 8 = k := by omega
        exact ⟨by omega, this ▸ hk⟩
      rw [hstop, if_pos rfl]
      congr 1
      omega
  | succ d ih =>
      intro m hm
      have hmlt : m < bits.length := by omega
      rw [List.drop_eq_getElem_cons hmlt, extractLoop]
      have hacc : bits.take m ++ [bits[m]] = bits.take (m + 1) := by
        simp
      rw [hacc]
      have hstop : stopCheck (bits.take (m + 1)) = false := by
        rw [Bool.eq_false_iff]
        intro hcontra
        rw [stopCheck_take bits (m + 1) (by omega)] at hcontra
        exact hmin (m + 1 - 8) (by omega) hcontra.2
      rw [hstop, if_neg (by simp)]
      exact ih (m + 1) (by omega)

/-- C7: `decodeSecretMessage` appends the red-channel LSB of each pixel in
row-major order, stops immediately once the last 8 accumulated values are
all zero, and strips those trailing 8 zero entries, so when the bit stream
has an 8-consecutive-zero window starting first at position `k` the returned
sequence is exactly the accumulated values before that window. -/
theorem C7_extract_stops_at_first_zero_window (g : Grid) (k : Nat)
    (hk : zeroWindowAt (gridBits g) k)
    (hmin : ∀ j, j < k → ¬ zeroWindowAt (gridBits g) j) :
    decodeSecretMessage g = some ((gridBits g).take k) := by
  have h8 : k + 8 ≤ (gridBits g).length := hk.1
  have hloop := extractLoop_stops (gridBits g) k hk hmin (k + 7) 0 (by omega)
  rw [List.drop_zero, List.take_zero] at hloop
  unfold decodeSecretMessage
  rw [hloop]
  simp only [List.length_take]
  rw [if_neg (by omega)]
  congr 1
  rw [List.take_take]
  congr 1
  omega

/-! ## Components of the embedded pixel -/

/-- The red channel written by the embed loop. -/
theorem embedPixel_r (message : List Nat) (c : RGBA) :
    (embedPixel message c).r
      = ((toRGBAColor c).r &&& 0xFE)
          ||| (getNextMessageBit message &&& hiddenBitMask) := rfl

/-- The green channel is copied from `originalRGBAColor`. -/
theorem embedPixel_g (message : List Nat) (c : RGBA) :
    (embedPixel message c).g = (toRGBAColor c).g := rfl

/-- The blue channel is copied from `originalRGBAColor`. -/
theorem embedPixel_b (message : List Nat) (c : RGBA) :
    (embedPixel message c).b = (toRGBAColor c).b := rfl

/-- The alpha channel is copied from `originalRGBAColor`. -/
theorem embedPixel_a (message : List Nat) (c : RGBA) :
    (embedPixel message c).a = (toRGBAColor c).a := rfl

/-! ## Claim theorems -/

/-- C4: `getNextMessageBit` receives the Go string by value and the
assignment `message = message[1:]` inside it never reaches the caller, so
for every non-empty payload the embed loop writes the same hidden bit — the
least significant bit of the payload's first byte — into every pixel of the
grid; no pixel encodes a bit of any payload byte after the first. -/
theorem C4_embed_writes_first_byte_lsb_everywhere
    (g : Grid) (c : Nat) (rest : List Nat) (x y : Int)
    (h : inBounds g.bounds x y) :
    ((embedSecretMessage g (c :: rest)).pix x y).r &&& hiddenBitMask
      = c &&& 1 := by
  rw [embed_pix_inBounds g (c :: rest) x y h, embedPixel_r,
    getNextMessageBit_cons, hiddenBitMask]
  exact embedR_lsb _ _ (channel8_le _) Nat.and_le_right

/-- Witness for C4 at a concrete input: a 4×4 grid, payload
`[3, 7, 8]`, pixel `(2, 3)` (index 14, far past the payload) still carries
bit `3 &&& 1 = 1`. -/
theorem C4_witness :
    ((embedSecretMessage grid4x4 (3 :: [7, 8])).pix 2 3).r &&& hiddenBitMask
      = 3 &&& 1 :=
  C4_embed_writes_first_byte_lsb_everywhere grid4x4 3 [7, 8] 2 3 (by decide)

/-- C6: for every in-bounds pixel of the embedded grid, the green, blue and
alpha channels equal the source pixel's channels exactly, and the red
channel agrees with the source on all bits above the LSB:
`encodedRed &&& 0xFE = originalRed &&& 0xFE`. -/
theorem C6_channel_isolation (g : Grid) (message : List Nat) (x y : Int)
    (hin : inBounds g.bounds x y)
    (hr : (g.pix x y).r ≤ 255) (hg : (g.pix x y).g ≤ 255)
    (hb : (g.pix x y).b ≤ 255) (ha : (g.pix x y).a ≤ 255) :
    ((embedSecretMessage g message).pix x y).g = (g.pix x y).g ∧
    ((embedSecretMessage g message).pix x y).b = (g.pix x y).b ∧
    ((embedSecretMessage g message).pix x y).a = (g.pix x y).a ∧
    ((embedSecretMessage g message).pix x y).r &&& 0xFE
      = (g.pix x y).r &&& 0xFE := by
  rw [embed_pix_inBounds g message x y hin]
  refine ⟨?_, ?_, ?_, ?_⟩
  · rw [embedPixel_g]
    exact channel8_colorRGBA32 _ hg
  · rw [embedPixel_b]
    exact channel8_colorRGBA32 _ hb
  · rw [embedPixel_a]
    exact channel8_colorRGBA32 _ ha
  · rw [embedPixel_r, hiddenBitMask]
    have hm : (toRGBAColor (g.pix x y)).r = (g.pix x y).r :=
      channel8_colorRGBA32 _ hr
    rw [hm]
    exact embedR_high _ _ hr (getNextMessageBit_le_one message)

/-- Witness for C6 at a concrete input: 4×4 grid, payload `[3]`,
pixel `(1, 2)`. -/
theorem C6_witness :
    ((embedSecretMessage grid4x4 [3]).pix 1 2).g = (grid4x4.pix 1 2).g ∧
    ((embedSecretMessage grid4x4 [3]).pix 1 2).b = (grid4x4.pix 1 2).b ∧
    ((embedSecretMessage grid4x4 [3]).pix 1 2).a = (grid4x4.pix 1 2).a ∧
    ((embedSecretMessage grid4x4 [3]).pix 1 2).r &&& 0xFE
      = (grid4x4.pix 1 2).r &&& 0xFE :=
  C6_channel_isolation grid4x4 [3] 1 2 (by decide) (by decide) (by decide)
    (by decide) (by decide)

/-- Witness for C7 at a concrete input: on `gridMixed` the hidden bits are
`1, 0, 0, …`, the first zero window starts at position 1, and extraction
returns the one bit before it. -/
theorem C7_witness :
    decodeSecretMessage gridMixed = some ((gridBits gridMixed).take 1) :=
  C7_extract_stops_at_first_zero_window gridMixed 1 (by decide)
    (by
      intro j hj
      have hj0 : j = 0 := by omega
      subst hj0
      decide)

/-- C5 (counterexample): `canFitMessage` multiplies the bounds' maxima, not
the width and height.  On a 2×2 grid with bounds `(1,1)–(3,3)` (so
`W = H = 2` and `(W*H*3)/8 = 1`) and a 2-byte payload, the code returns
`true` although `2 < 1` is false — the claim's `L < (W*H*3)/8`
characterization fails. -/
theorem C5_counterexample :
    canFitMessage gridOffOrigin [7, 7] = true ∧
    ¬ ((([7, 7] : List Nat).length : Int)
        < Int.tdiv (gridWidth gridOffOrigin * gridHeight gridOffOrigin * 3) 8) := by
  decide

/-- C5 (amended): `canFitMessage` computes
`maxBytes = (Max.X * Max.Y * 3) / 8` from the bounds' maxima with
truncating division; when the bounds start at the origin this equals
`(W * H * 3) / 8`, and the function returns `true` iff the payload length
is strictly below it. -/
theorem C5_canFit_iff_lt_capacity (g : Grid) (message : List Nat)
    (hx : g.bounds.minX = 0) (hy : g.bounds.minY = 0) :
    canFitMessage g message = true ↔
      (message.length : Int)
        < Int.tdiv (gridWidth g * gridHeight g * 3) 8 := by
  rw [canFitMessage]
  simp only [gridWidth, gridHeight, hx, hy, Int.sub_zero, decide_eq_true_eq]

/-- Witness for the amended C5 at a concrete input: the 4×4 grid has
capacity `(4*4*3)/8 = 6`, and a 5-byte payload fits. -/
theorem C5_witness :
    canFitMessage grid4x4 (List.replicate 5 7) = true ↔
      ((List.replicate 5 7).length : Int)
        < Int.tdiv (gridWidth grid4x4 * gridHeight grid4x4 * 3) 8 :=
  C5_canFit_iff_lt_capacity grid4x4 (List.replicate 5 7) rfl rfl

/-- C1: the round-trip claim fails on the code.  The payload `[1]` contains
no zero-valued symbol, and the 4×4 grid has `W×H = 16 ≥ 8`, yet because
`getNextMessageBit` never consumes the message, every one of the 16 pixels
receives hidden bit `1`; extraction finds no zero window, runs to the end,
strips the last 8 entries, and returns eight `1`s instead of the payload. -/
theorem C1_roundtrip_fails :
    decodeSecretMessage (embedSecretMessage grid4x4 [1])
        = some (List.replicate 8 1) ∧
    List.replicate 8 1 ≠ [(1 : Nat)] := by
  decide

/-- C2: the claim that pixel `i` carries `payload[i] & 1` fails on the
code.  With payload `[1, 2]`, the pixel at index 1 (coordinates `(1, 0)`)
should carry `payload[1] & 1 = 2 & 1 = 0`, but the embed loop hands the
untouched message to `getNextMessageBit` on every iteration, so that pixel
carries `payload[0] & 1 = 1`. -/
theorem C2_second_pixel_gets_first_byte_bit :
    (([1, 2] : List Nat)[1]? = some 2) ∧ (2 &&& 1 = 0) ∧
    ((embedSecretMessage grid4x4 [1, 2]).pix 1 0).r &&& hiddenBitMask = 1 := by
  decide

/-- C3: the 4×4/`0x03` scenario fails on the code.  Pixel `(0,0)` does get
red 201, but so does every other pixel — pixel `(1,0)` is 201 rather than
the claimed 200 — and extraction returns eight `1`s, not `[1]`. -/
theorem C3_scenario_fails :
    ((embedSecretMessage grid4x4 [3]).pix 0 0).r = 201 ∧
    ((embedSecretMessage grid4x4 [3]).pix 1 0).r = 201 ∧
    decodeSecretMessage (embedSecretMessage grid4x4 [3])
        = some (List.replicate 8 1) := by
  decide

/-- C8: the claim that every pixel at index ≥ payload length receives
hidden bit 0 fails on the code: with payload `[1]`, the pixel at index 1
(coordinates `(1, 0)`) receives bit 1, because the payload is never
consumed and so never exhausted.  The empty-payload special case does hold:
embedding `[]` into the 16-pixel grid makes extraction return `[]`. -/
theorem C8_padding_bit_not_zero :
    ((embedSecretMessage grid4x4 [1]).pix 1 0).r &&& hiddenBitMask = 1 ∧
    decodeSecretMessage (embedSecretMessage grid4x4 []) = some [] := by
  decide

/-- C9: on a grid with fewer than 8 pixels the claim requires extraction to
return an empty sequence without crashing, but the code reaches
`messageBytes[:len(messageBytes)-8]` with `len(messageBytes) = 4` and
panics (the modelled `none`). -/
theorem C9_small_grid_panics :
    decodeSecretMessage grid2x2 = none := by
  decide

/-- C10: the encode path hands the ORIGINAL grid to the image encoder, not
the grid produced by the embed step: line 126 of main.go passes `img` where
`encodedImg` was intended.  At pixel `(0,0)` the persisted grid keeps red
200 while the embedded grid has red 201. -/
theorem C10_encoder_receives_original_grid :
    ((encodePathPersistedGrid grid4x4 [1]).pix 0 0).r = 200 ∧
    ((embedSecretMessage grid4x4 [1]).pix 0 0).r = 201 := by
  decide
